import Mathlib

/-!
Verification development for the KAMIS market-data acquisition pipelines
(`fertilizer.py` and `livestock.py`).  The two scripts scrape paginated
HTML market-price tables, normalize the rows, append them into a monthly
BigQuery table, and then run a read/drop/dedup/recreate/reload
reconciliation pass.

The shallow embedding below models, from the source:
* row deduplication (`DataFrame.drop_duplicates(subset=..., keep='first')`),
* the market-price row types and dedup keys of the two pipelines,
* column-name canonicalization (`strip`/`lower`/`replace(" ","_")`/
  regex strip of characters outside `[0-9a-zA-Z_]`),
* numeric extraction from price cells (`str.extract(r'(\d+\.?\d*)')`),
* the retry/timeout configuration of the HTTP session,
* the reconciliation SQL query shapes and the explicit destination schema,
* the per-commodity pagination loop that terminates only on an exception,
* the top-level control flow of each script as a function from an
  environment (the fetched batch plus the store's responses to each
  request) to the list of destination-store operations issued and the
  process outcome.
-/

namespace Kamis

/-! ## Deduplication: `drop_duplicates(subset=key, keep='first')`

Pandas keeps, for every distinct key tuple, the first row in order and
drops every later row with the same key; kept rows are unchanged.
`dropDupAux seen l` processes `l` left to right, skipping any row whose
key was already seen. -/

def dropDupAux {α β : Type} [DecidableEq β] (key : α → β) : List β → List α → List α
  | _, [] => []
  | seen, x :: xs =>
    if key x ∈ seen then dropDupAux key seen xs
    else x :: dropDupAux key (key x :: seen) xs

/-- `drop_duplicates(subset=key)` with the default `keep='first'`. -/
def dropDuplicatesBy {α β : Type} [DecidableEq β] (key : α → β) (l : List α) : List α :=
  dropDupAux key [] l

theorem dropDupAux_sublist {α β : Type} [DecidableEq β] (key : α → β) :
    ∀ (seen : List β) (l : List α), (dropDupAux key seen l).Sublist l := by
  intro seen l
  induction l generalizing seen with
  | nil => simp [dropDupAux]
  | cons x xs ih =>
    simp only [dropDupAux]
    split
    · exact (ih seen).trans (List.sublist_cons_self x xs)
    · exact (ih (key x :: seen)).cons₂ x

theorem dropDupAux_key_not_seen {α β : Type} [DecidableEq β] (key : α → β) :
    ∀ (seen : List β) (l : List α) (a : α), a ∈ dropDupAux key seen l → key a ∉ seen := by
  intro seen l
  induction l generalizing seen with
  | nil => simp [dropDupAux]
  | cons x xs ih =>
    intro a ha
    simp only [dropDupAux] at ha
    split at ha
    · exact ih seen a ha
    · rcases List.mem_cons.mp ha with h | h
      · subst h; assumption
      · intro hmem
        exact ih (key x :: seen) a h (List.mem_cons_of_mem _ hmem)

theorem dropDupAux_keys_nodup {α β : Type} [DecidableEq β] (key : α → β) :
    ∀ (seen : List β) (l : List α), ((dropDupAux key seen l).map key).Nodup := by
  intro seen l
  induction l generalizing seen with
  | nil => simp [dropDupAux]
  | cons x xs ih =>
    simp only [dropDupAux]
    split
    · exact ih seen
    · refine List.nodup_cons.mpr ⟨?_, ih (key x :: seen)⟩
      intro hmem
      rcases List.mem_map.mp hmem with ⟨a, ha, hkey⟩
      exact dropDupAux_key_not_seen key _ _ a ha (hkey ▸ List.mem_cons_self _ _)

theorem dropDupAux_first_occurrence {α β : Type} [DecidableEq β] (key : α → β) :
    ∀ (seen : List β) (l : List α) (a : α), a ∈ dropDupAux key seen l →
      l.find? (fun x => key x = key a) = some a := by
  intro seen l
  induction l generalizing seen with
  | nil => simp [dropDupAux]
  | cons x xs ih =>
    intro a ha
    simp only [dropDupAux] at ha
    split at ha
    · have hnot : key a ∉ seen := dropDupAux_key_not_seen key seen xs a ha
      have hne : ¬ (key x = key a) := fun h => hnot (h ▸ (by assumption))
      rw [List.find?_cons_of_neg _ (by simpa using hne)]
      exact ih seen a ha
    · rcases List.mem_cons.mp ha with h | h
      · subst h
        rw [List.find?_cons_of_pos _ (by simp)]
      · have hnot : key a ∉ key x :: seen :=
          dropDupAux_key_not_seen key (key x :: seen) xs a h
        have hne : ¬ (key x = key a) := fun hk => hnot (hk ▸ List.mem_cons_self _ _)
        rw [List.find?_cons_of_neg _ (by simpa using hne)]
        exact ih (key x :: seen) a h

theorem dropDupAux_complete {α β : Type} [DecidableEq β] (key : α → β) :
    ∀ (seen : List β) (l : List α) (x : α), x ∈ l →
      key x ∈ seen ∨ ∃ r ∈ dropDupAux key seen l, key r = key x := by
  intro seen l
  induction l generalizing seen with
  | nil => simp
  | cons y ys ih =>
    intro x hx
    simp only [dropDupAux]
    rcases List.mem_cons.mp hx with h | h
    · subst h
      by_cases hk : key x ∈ seen
      · exact Or.inl hk
      · right
        rw [if_neg hk]
        exact ⟨x, List.mem_cons_self _ _, rfl⟩
    · by_cases hk : key y ∈ seen
      · rw [if_pos hk]
        exact ih seen x h
      · rw [if_neg hk]
        rcases ih (key y :: seen) x h with hmem | ⟨r, hr, hkey⟩
        · rcases List.mem_cons.mp hmem with heq | hmem'
          · exact Or.inr ⟨y, List.mem_cons_self _ _, heq.symm⟩
          · exact Or.inl hmem'
        · exact Or.inr ⟨r, List.mem_cons_of_mem _ hr, hkey⟩

/-- Summary of `drop_duplicates` behaviour used by the reconciliation pass. -/
theorem dropDuplicatesBy_spec {α β : Type} [DecidableEq β] (key : α → β) (l : List α) :
    ((dropDuplicatesBy key l).map key).Nodup ∧
    (dropDuplicatesBy key l).Sublist l ∧
    (∀ a ∈ dropDuplicatesBy key l, l.find? (fun x => key x = key a) = some a) ∧
    (∀ x ∈ l, ∃ r ∈ dropDuplicatesBy key l, key r = key x) := by
  refine ⟨dropDupAux_keys_nodup key [] l, dropDupAux_sublist key [] l, ?_, ?_⟩
  · intro a ha
    exact dropDupAux_first_occurrence key [] l a ha
  · intro x hx
    rcases dropDupAux_complete key [] l x hx with h | h
    · simp at h
    · exact h

/-! ## Market-price rows and dedup keys

`fertilizer.py` drops `grade`/`sex` and dedups on the 8-field key
(lines 177-178); `livestock.py` keeps them and dedups on the 10-field key
(lines 161-162).  Nullable FLOAT columns are `Option ℚ`; pandas treats
nulls as equal when deduplicating, which `Option` equality matches.
`date` is kept as its normalized text. -/

structure FertRow where
  commodity : String
  classification : String
  market : String
  wholesale : Option ℚ
  retail : Option ℚ
  supply_volume : Option ℚ
  county : String
  date : String
deriving DecidableEq, Repr

structure LiveRow where
  commodity : String
  classification : String
  grade : String
  sex : String
  market : String
  wholesale : Option ℚ
  retail : Option ℚ
  supply_volume : Option ℚ
  county : String
  date : String
deriving DecidableEq, Repr

/-- Dedup key of `fertilizer.py` line 177: `['commodity', 'classification',
'market', 'wholesale', 'retail', 'supply_volume', 'county', 'date']`. -/
def fertKey (r : FertRow) :
    String × String × String × Option ℚ × Option ℚ × Option ℚ × String × String :=
  (r.commodity, r.classification, r.market, r.wholesale, r.retail,
   r.supply_volume, r.county, r.date)

/-- Dedup key of `livestock.py` line 161: the fertilizer key plus
`grade` and `sex`. -/
def liveKey (r : LiveRow) :
    String × String × String × String × String × Option ℚ × Option ℚ × Option ℚ ×
      String × String :=
  (r.commodity, r.classification, r.grade, r.sex, r.market, r.wholesale, r.retail,
   r.supply_volume, r.county, r.date)

set_option synthInstance.maxSize 512 in
instance fertKeyDecEq :
    DecidableEq (String × String × String × Option ℚ × Option ℚ × Option ℚ × String × String) :=
  inferInstance

set_option synthInstance.maxSize 1024 in
instance liveKeyDecEq :
    DecidableEq (String × String × String × String × String × Option ℚ × Option ℚ ×
      Option ℚ × String × String) :=
  inferInstance

/-! ## Column-name canonicalization

`bigdata.columns.str.strip().str.lower().str.replace(" ", "_")
 .str.replace(r"[^0-9a-zA-Z_]", "", regex=True)`
(fertilizer.py lines 85-91, livestock.py lines 88-94).  Modelled on the
ASCII fragment: `lowerChar` lowercases `A`-`Z` as Python does; non-ASCII
characters are stripped by the final regex step either way. -/

def isWS (c : Char) : Bool :=
  c = ' ' || c = '\t' || c = '\n' || c = '\r'

def lowerChar (c : Char) : Char := c.toLower

def replaceSpace (c : Char) : Char :=
  if c = ' ' then '_' else c

/-- The character class `[0-9a-zA-Z_]` kept by the regex replace. -/
def allowedChar (c : Char) : Bool :=
  c.isDigit || ('a' ≤ c && c ≤ 'z') || ('A' ≤ c && c ≤ 'Z') || c = '_'

/-- `str.strip()`: drop whitespace at both ends. -/
def stripEnds (l : List Char) : List Char :=
  ((l.dropWhile isWS).reverse.dropWhile isWS).reverse

/-- The full canonicalization chain applied to one column name. -/
def cleanName (s : String) : String :=
  ⟨(((stripEnds s.data).map lowerChar).map replaceSpace).filter allowedChar⟩

/-! ## Numeric extraction from price cells

`pd.to_numeric(col.str.extract(r'(\d+\.?\d*)')[0], errors='coerce')`
(fertilizer.py lines 95-96, livestock.py lines 98-99).  `str.extract`
searches for the leftmost match of `\d+\.?\d*`: the match starts at the
first digit of the cell, takes a maximal digit run, an optional single
dot, then a maximal digit run. -/

/-- The text matched by `\d+\.?\d*` at a position starting with a digit. -/
def matchDecimalAt (l : List Char) : List Char :=
  let d1 := l.takeWhile Char.isDigit
  match l.dropWhile Char.isDigit with
  | '.' :: r2 => d1 ++ '.' :: r2.takeWhile Char.isDigit
  | _ => d1

def extractDecimalAux : List Char → Option (List Char)
  | [] => none
  | c :: rest => if c.isDigit then some (matchDecimalAt (c :: rest)) else extractDecimalAux rest

/-- `str.extract(r'(\d+\.?\d*)')` on one cell: the matched text, or null. -/
def extractDecimal (s : String) : Option String :=
  (extractDecimalAux s.data).map fun l => ⟨l⟩

/-- Numeric value of a digit list read in base 10. -/
def digitsVal (l : List Char) : ℕ :=
  l.foldl (fun acc c => 10 * acc + (c.toNat - '0'.toNat)) 0

/-- `pd.to_numeric` on a string matched by `\d+\.?\d*`: integer part,
plus the fractional digits scaled down. -/
def decVal (s : String) : ℚ :=
  let int := s.data.takeWhile Char.isDigit
  let frac := (s.data.dropWhile Char.isDigit).drop 1
  (digitsVal int : ℚ) + (digitsVal frac : ℚ) / (10 : ℚ) ^ frac.length

/-! ## HTTP retry/timeout configuration

Both scripts build the same session (lines 20-29):
`Retry(total=5, backoff_factor=2, status_forcelist=[429,500,502,503,504],
allowed_methods=["GET"])` mounted via `HTTPAdapter`, and every page fetch
uses `session.get(url, verify=False, timeout=60)` (fertilizer.py line 64,
livestock.py line 68). -/

structure RetryConfig where
  total : ℕ
  backoff_factor : ℚ
  status_forcelist : List ℕ
  allowed_methods : List String
deriving Repr

/-- The `Retry` object both scripts construct. -/
def retriesConfig : RetryConfig :=
  { total := 5
    backoff_factor := 2
    status_forcelist := [429, 500, 502, 503, 504]
    allowed_methods := ["GET"] }

/-- The fixed per-attempt timeout passed to every `session.get`. -/
def requestTimeoutSeconds : ℕ := 60

/-- Modelled from the spec: the retry transport (`urllib3.util.retry.Retry`
with `requests.adapters.HTTPAdapter`) is an external library, not part of
this repository.  Per the spec's policy (and the scripts' own comments on
lines 21-24), the configuration yields at most `total` attempts per
request, with exponential backoff `backoff_factor * 2^(k-1)` seconds
between attempt `k` and attempt `k+1`. -/
def backoffBetween (cfg : RetryConfig) (k : ℕ) : ℚ :=
  cfg.backoff_factor * 2 ^ (k - 1)

/-- Modelled from the spec: a response is retried exactly when its status
is in the forcelist and the request method is in the allowed methods. -/
def shouldRetry (cfg : RetryConfig) (status : ℕ) (method : String) : Bool :=
  cfg.status_forcelist.contains status && cfg.allowed_methods.contains method

/-! ## Destination-store reads and the explicit schema

The reconciliation read of `fertilizer.py` (lines 156-163) is
`SELECT * FROM table ORDER BY start_date DESC`; the previous-month
carry-forward read (line 127) is `SELECT * FROM prev ORDER BY date DESC`;
`livestock.py`'s two reads (lines 112, 141-144) have no ORDER BY.
A full-table read is modelled by its optional order-by column and
direction (`true` = DESC). -/

structure TableRead where
  orderBy : Option (String × Bool)
deriving DecidableEq, Repr

/-- fertilizer.py lines 156-159: `SELECT * FROM {table_id} ORDER BY start_date DESC`. -/
def fertReconRead : TableRead := { orderBy := some ("start_date", true) }

/-- fertilizer.py line 127: `SELECT * FROM {prev_table_id} ORDER BY date DESC`. -/
def fertPrevRead : TableRead := { orderBy := some ("date", true) }

/-- livestock.py lines 141-144: `SELECT * FROM {table_id}` (no ORDER BY). -/
def liveReconRead : TableRead := { orderBy := none }

/-- livestock.py line 112: `SELECT * FROM {prev_table_id}` (no ORDER BY). -/
def livePrevRead : TableRead := { orderBy := none }

/-- Column names of the explicit schema `fertilizer.py` recreates the
table with (lines 185-194). -/
def fertSchemaColumns : List String :=
  ["commodity", "classification", "market", "wholesale", "retail",
   "supply_volume", "county", "date"]

/-- Column names of the explicit schema `livestock.py` recreates the
table with (lines 169-180). -/
def liveSchemaColumns : List String :=
  ["commodity", "classification", "grade", "sex", "market", "wholesale",
   "retail", "supply_volume", "county", "date"]

/-! ## Pagination: termination on exception only

For each commodity id the scripts loop `while True`, fetching page
`offset/3000` and parsing it with `pd.read_html`; any exception in the
`try` block breaks the loop for that commodity and the outer `for` moves
on (fertilizer.py lines 58-74, livestock.py lines 62-78).  A page's
outcome is `Except`: `ok` carries the rows of the first parsed table,
`error` is whatever exception `session.get` or `pd.read_html` raised. -/

/-- A raw scraped row, as free text cells. -/
def RawRow := List String
deriving DecidableEq

/-- A parsed HTML table: its rows. -/
def RawTable := List RawRow
deriving DecidableEq, Inhabited

/-- An HTML document body, abstracted to the list of tables it contains. -/
structure Html where
  tables : List RawTable

/-- `pd.read_html`: raises (`ValueError: No tables found`) when the body
has no table, otherwise returns the non-empty table list. -/
def read_html (body : Html) : Except String (List RawTable) :=
  match body.tables with
  | [] => Except.error "No tables found"
  | t :: ts => Except.ok (t :: ts)

/-- One iteration's fetch-and-parse: a failed GET propagates its error;
a successful response is parsed, and `market_prices[0]` takes the first
table. -/
def fetchParse (resp : Except String Html) : Except String RawTable :=
  match resp with
  | Except.error e => Except.error e
  | Except.ok body =>
    match read_html body with
    | Except.error e => Except.error e
    | Except.ok ts => Except.ok (ts.headI)

/-- One commodity id's page source: the outcome of fetching and parsing
page `n` (offset `3000 * n`), bundled with the fact that some page fails,
which is the only way the `while True` loop exits. -/
structure ItemSource where
  page : ℕ → Except String RawTable
  fails : ∃ n, (page n).isOk = false

instance ItemSource.decFail (it : ItemSource) :
    DecidablePred fun n => (it.page n).isOk = false := fun _ => by
  infer_instance

/-- The pages accumulated for one commodity: every page before the first
failing one, in order. -/
def ItemSource.collected (it : ItemSource) : List RawTable :=
  (List.range (Nat.find it.fails)).filterMap fun n => (it.page n).toOption

/-- The whole fetch phase: rows of every collected page of every
commodity, concatenated in order into `bigdata`. -/
def fetchRun (items : List ItemSource) : List RawRow :=
  (items.map fun it => it.collected.flatten).flatten

/-! ## Top-level run models

Each script, after the fetch phase, is a straight-line program whose
behaviour depends on the fetched batch and on the store's response to
each request it issues.  A run is modelled as a function from an
environment (those inputs) to the ordered list of destination-store
operations issued and the process outcome.  Row-content transformations
that cannot fail once the referenced columns exist (`pd.to_datetime`
aside, which no claim concerns, and the price extraction modelled above)
are abstracted: the environment carries the normalized batch content
directly, plus the raw column names needed to decide whether
normalization raises. -/

/-- Result of a query the script guards with `except NotFound`. -/
inductive QRes (α : Type) where
  | ok (a : α)
  | notFound
  | err
deriving DecidableEq, Repr

/-- Process outcome: `exit0` is a zero exit status, `fatal` an uncaught
exception (non-zero exit). -/
inductive Outcome where
  | exit0
  | fatal
deriving DecidableEq, Repr

/-- A destination-store request issued by a run, in issue order. -/
inductive StoreOp (ρ : Type) where
  | checkCurrent                -- COUNT(*) of current-month rows (fertilizer guard)
  | readPrev                    -- SELECT * from the previous month's table
  | append (rows : List ρ)      -- load_table_from_dataframe, WRITE_APPEND
  | readAll                     -- reconciliation SELECT * of the period table
  | dropTable                   -- client.delete_table
  | createTable                 -- client.create_table with the explicit schema
  | loadFinal (rows : List ρ)   -- reload of the deduplicated rows
deriving DecidableEq, Repr

def StoreOp.isAppend {ρ : Type} : StoreOp ρ → Bool
  | .append _ => true
  | _ => false

def StoreOp.isReadAll {ρ : Type} : StoreOp ρ → Bool
  | .readAll => true
  | _ => false

/-- Environment of one `fertilizer.py` run. -/
structure FertEnv where
  day1 : Bool                         -- now.day == 1
  rawCols : List String               -- scraped column names, pre-canonicalization
  batch : List FertRow                -- content of the normalized fetched rows
  check : QRes ℕ                      -- COUNT(*) guard query result (line 114)
  prevRead : QRes (List FertRow)      -- previous-month read result (line 126)
  appendOk : Bool                     -- whether the WRITE_APPEND load job succeeds
  readAllRes : Option (List FertRow)  -- reconciliation read; none = raises
  dropOk : Bool                       -- whether delete_table succeeds
  createOk : Bool                     -- whether create_table succeeds (failure is caught)
  finalLoadOk : Bool                  -- whether the final load call succeeds

/-- The reconciliation pass of `fertilizer.py` (lines 156-221): read the
period table, drop it, dedup in memory, recreate it (creation failure is
caught and only logged, lines 202-207), reload, poll the job to DONE. -/
def fertRecon (e : FertEnv) (pre : List (StoreOp FertRow)) :
    List (StoreOp FertRow) × Outcome :=
  match e.readAllRes with
  | none => (pre ++ [.readAll], .fatal)
  | some rows =>
    if e.dropOk then
      let ded := dropDuplicatesBy fertKey rows
      if e.finalLoadOk then
        (pre ++ [.readAll, .dropTable, .createTable, .loadFinal ded], .exit0)
      else
        (pre ++ [.readAll, .dropTable, .createTable, .loadFinal ded], .fatal)
    else (pre ++ [.readAll, .dropTable], .fatal)

/-- The first-of-month rollover block of `fertilizer.py` (lines 119-143),
entered when the guard found no current-month data.  Every exception in
the block is caught by the `except Exception` on line 142, so the run
always proceeds to the reconciliation pass. -/
def fertRollover (e : FertEnv) : List (StoreOp FertRow) × Outcome :=
  match e.prevRead with
  | QRes.err => fertRecon e [.checkCurrent, .readPrev]
  | QRes.notFound => fertRecon e [.checkCurrent, .readPrev, .append e.batch]
  | QRes.ok prev => fertRecon e [.checkCurrent, .readPrev, .append (prev ++ e.batch)]

/-- One `fertilizer.py` run, from the empty-batch check (line 78) to the
end of the script.  Lines 94-96 raise if `date`/`wholesale`/`retail` are
missing after canonicalization; line 99's `drop(columns=['grade','sex'])`
raises if either column is missing; both happen before any store request.
On day 1 the guard query (lines 107-117) catches only `NotFound`; if the
guard finds current-month rows the whole load block is skipped
(line 119). -/
def fertRun (e : FertEnv) : List (StoreOp FertRow) × Outcome :=
  if e.batch.isEmpty then ([], .exit0)
  else
    let cols := e.rawCols.map cleanName
    if ¬ ("date" ∈ cols ∧ "wholesale" ∈ cols ∧ "retail" ∈ cols) then ([], .fatal)
    else if ¬ ("grade" ∈ cols ∧ "sex" ∈ cols) then ([], .fatal)
    else if e.day1 then
      match e.check with
      | QRes.err => ([.checkCurrent], .fatal)
      | QRes.notFound => fertRollover e
      | QRes.ok cnt => if cnt > 0 then fertRecon e [.checkCurrent] else fertRollover e
    else
      if e.appendOk then fertRecon e [.append e.batch]
      else ([.append e.batch], .fatal)

/-- Environment of one `livestock.py` run (no guard query). -/
structure LiveEnv where
  day1 : Bool
  rawCols : List String
  batch : List LiveRow
  prevRead : QRes (List LiveRow)
  appendOk : Bool
  readAllRes : Option (List LiveRow)
  dropOk : Bool
  createOk : Bool
  finalLoadOk : Bool

/-- The reconciliation pass of `livestock.py` (lines 141-205). -/
def liveRecon (e : LiveEnv) (pre : List (StoreOp LiveRow)) :
    List (StoreOp LiveRow) × Outcome :=
  match e.readAllRes with
  | none => (pre ++ [.readAll], .fatal)
  | some rows =>
    if e.dropOk then
      let ded := dropDuplicatesBy liveKey rows
      if e.finalLoadOk then
        (pre ++ [.readAll, .dropTable, .createTable, .loadFinal ded], .exit0)
      else
        (pre ++ [.readAll, .dropTable, .createTable, .loadFinal ded], .fatal)
    else (pre ++ [.readAll, .dropTable], .fatal)

/-- The first-of-month block of `livestock.py` (lines 104-128): no
idempotency guard — carry-forward is attempted unconditionally, and every
exception in the block is caught on line 127. -/
def liveRollover (e : LiveEnv) : List (StoreOp LiveRow) × Outcome :=
  match e.prevRead with
  | QRes.err => liveRecon e [.readPrev]
  | QRes.notFound => liveRecon e [.readPrev, .append e.batch]
  | QRes.ok prev => liveRecon e [.readPrev, .append (prev ++ e.batch)]

/-- One `livestock.py` run, from the empty-batch check (line 82) to the
end of the script.  Lines 97-99 raise if `date`/`wholesale`/`retail` are
missing; there is no `grade`/`sex` drop in this pipeline. -/
def liveRun (e : LiveEnv) : List (StoreOp LiveRow) × Outcome :=
  if e.batch.isEmpty then ([], .exit0)
  else
    let cols := e.rawCols.map cleanName
    if ¬ ("date" ∈ cols ∧ "wholesale" ∈ cols ∧ "retail" ∈ cols) then ([], .fatal)
    else if e.day1 then liveRollover e
    else
      if e.appendOk then liveRecon e [.append e.batch]
      else ([.append e.batch], .fatal)

/-! ## Canonicalization lemmas (for C10) -/

theorem charOfNat_toNat {n : ℕ} (h : n.isValidChar) : (Char.ofNat n).toNat = n := by
  unfold Char.ofNat
  rw [dif_pos h]
  rfl

theorem lowerChar_eq_self {c : Char} (h : ¬ (65 ≤ c.toNat ∧ c.toNat ≤ 90)) :
    lowerChar c = c := by
  simp only [lowerChar, Char.toLower]
  rw [if_neg]
  omega

theorem lowerChar_toNat_not_upper (c : Char) :
    ¬ (65 ≤ (lowerChar c).toNat ∧ (lowerChar c).toNat ≤ 90) := by
  simp only [lowerChar, Char.toLower]
  split
  · rename_i h
    rw [charOfNat_toNat (by left; omega)]
    omega
  · rename_i h
    omega

theorem lowerChar_fix_image (b : Char) :
    lowerChar (replaceSpace (lowerChar b)) = replaceSpace (lowerChar b) := by
  by_cases hb : lowerChar b = ' '
  · simp only [replaceSpace, hb, if_pos]
    decide
  · simp only [replaceSpace, if_neg hb]
    exact lowerChar_eq_self (lowerChar_toNat_not_upper b)

theorem replaceSpace_eq_self {c : Char} (h : allowedChar c = true) : replaceSpace c = c := by
  have hc : c ≠ ' ' := by
    intro heq
    subst heq
    simp [allowedChar] at h
  simp [replaceSpace, hc]

theorem isWS_eq_false_of_allowed {c : Char} (h : allowedChar c = true) : isWS c = false := by
  by_contra hw
  have hw' : isWS c = true := by
    cases hws : isWS c
    · exact absurd hws hw
    · rfl
  have : ((c = ' ' ∨ c = '\t') ∨ c = '\n') ∨ c = '\r' := by
    simpa [isWS] using hw'
  rcases this with ((rfl | rfl) | rfl) | rfl <;> simp [allowedChar] at h

theorem map_eq_self_of_fix {α : Type} (f : α → α) :
    ∀ l : List α, (∀ a ∈ l, f a = a) → l.map f = l := by
  intro l h
  induction l with
  | nil => rfl
  | cons x xs ih =>
    simp only [List.map_cons]
    rw [h x (List.mem_cons_self _ _), ih fun a ha => h a (List.mem_cons_of_mem _ ha)]

theorem dropWhile_eq_self_of_none {l : List Char} (h : ∀ c ∈ l, isWS c = false) :
    l.dropWhile isWS = l := by
  cases l with
  | nil => rfl
  | cons x xs =>
    rw [List.dropWhile_cons, if_neg]
    simp [h x (List.mem_cons_self _ _)]

theorem stripEnds_eq_self {l : List Char} (h : ∀ c ∈ l, isWS c = false) :
    stripEnds l = l := by
  unfold stripEnds
  rw [dropWhile_eq_self_of_none h, dropWhile_eq_self_of_none, List.reverse_reverse]
  intro c hc
  exact h c (List.mem_reverse.mp hc)

theorem mem_cleanName_allowed {s : String} {c : Char} (hc : c ∈ (cleanName s).data) :
    allowedChar c = true := by
  have hc' : c ∈ (((stripEnds s.data).map lowerChar).map replaceSpace).filter allowedChar := hc
  exact (List.mem_filter.mp hc').2

theorem mem_cleanName_image {s : String} {c : Char} (hc : c ∈ (cleanName s).data) :
    ∃ b, c = replaceSpace (lowerChar b) := by
  have hc' : c ∈ (((stripEnds s.data).map lowerChar).map replaceSpace).filter allowedChar := hc
  have hm := (List.mem_filter.mp hc').1
  rcases List.mem_map.mp hm with ⟨b', hb', rfl⟩
  rcases List.mem_map.mp hb' with ⟨b, _, rfl⟩
  exact ⟨b, rfl⟩

/-- C10: the column-name canonicalization chain (trim, lower-case,
space-to-underscore, strip characters outside `[0-9a-zA-Z_]`) is
idempotent: applied to an already-canonicalized name it returns the name
unchanged. -/
theorem cleanName_idempotent (s : String) : cleanName (cleanName s) = cleanName s := by
  have hall : ∀ c ∈ (cleanName s).data, allowedChar c = true := fun c hc =>
    mem_cleanName_allowed hc
  have h1 : stripEnds (cleanName s).data = (cleanName s).data :=
    stripEnds_eq_self fun c hc => isWS_eq_false_of_allowed (hall c hc)
  have h2 : (cleanName s).data.map lowerChar = (cleanName s).data := by
    apply map_eq_self_of_fix
    intro c hc
    obtain ⟨b, rfl⟩ := mem_cleanName_image hc
    exact lowerChar_fix_image b
  have h3 : (cleanName s).data.map replaceSpace = (cleanName s).data :=
    map_eq_self_of_fix _ _ fun c hc => replaceSpace_eq_self (hall c hc)
  have h4 : (cleanName s).data.filter allowedChar = (cleanName s).data :=
    List.filter_eq_self.mpr hall
  show (⟨(((stripEnds (cleanName s).data).map lowerChar).map replaceSpace).filter
      allowedChar⟩ : String) = cleanName s
  rw [h1, h2, h3, h4]

/-! ## Claim C1: reconciliation dedup -/

/-- C1: for every row set read back during the reconciliation pass, the
deduplicated result has exactly one row per distinct dedup-key tuple
(the 8-field fertilizer key, resp. the 10-field livestock key with
`grade` and `sex`); for each key the retained row is the first occurrence
in read order, and every other row is dropped unchanged (the output is a
sublist of the input), never merged. -/
theorem dedup_unique_first_occurrence :
    (∀ rows : List FertRow,
      ((dropDuplicatesBy fertKey rows).map fertKey).Nodup ∧
      (dropDuplicatesBy fertKey rows).Sublist rows ∧
      (∀ a ∈ dropDuplicatesBy fertKey rows,
        rows.find? (fun x => fertKey x = fertKey a) = some a) ∧
      (∀ x ∈ rows, ∃ r ∈ dropDuplicatesBy fertKey rows, fertKey r = fertKey x)) ∧
    (∀ rows : List LiveRow,
      ((dropDuplicatesBy liveKey rows).map liveKey).Nodup ∧
      (dropDuplicatesBy liveKey rows).Sublist rows ∧
      (∀ a ∈ dropDuplicatesBy liveKey rows,
        rows.find? (fun x => liveKey x = liveKey a) = some a) ∧
      (∀ x ∈ rows, ∃ r ∈ dropDuplicatesBy liveKey rows, liveKey r = liveKey x)) :=
  ⟨fun rows => dropDuplicatesBy_spec fertKey rows,
   fun rows => dropDuplicatesBy_spec liveKey rows⟩

/-- Concrete rows for the dedup witness (the spec's §8 scenario: a DAP
quote, its exact duplicate, and a distinct row). -/
def fr1 : FertRow :=
  ⟨"Fertilizer", "DAP", "Nairobi", some 3500, some 3700, none, "Nairobi", "2024-03-05"⟩

def fr2 : FertRow := fr1

def fr3 : FertRow := { fr1 with market := "Mombasa" }

theorem dedup_unique_first_occurrence_witness :
    ((dropDuplicatesBy fertKey [fr1, fr2, fr3]).map fertKey).Nodup ∧
    [fr1, fr2, fr3].find? (fun x => fertKey x = fertKey fr1) = some fr1 ∧
    dropDuplicatesBy fertKey [fr1, fr2, fr3] = [fr1, fr3] := by
  refine ⟨(dedup_unique_first_occurrence.1 [fr1, fr2, fr3]).1, ?_, by decide⟩
  exact (dedup_unique_first_occurrence.1 [fr1, fr2, fr3]).2.2.1 fr1 (by decide)

/-! ## Claim C5: numeric extraction -/

theorem matchDecimalAt_starts (l : List Char) : matchDecimalAt l <+: l := by
  unfold matchDecimalAt
  split
  · rename_i r2 hd
    obtain ⟨t, ht⟩ := List.takeWhile_prefix (l := r2) Char.isDigit
    refine ⟨t, ?_⟩
    have hl : l.takeWhile Char.isDigit ++ l.dropWhile Char.isDigit = l :=
      List.takeWhile_append_dropWhile Char.isDigit l
    rw [hd] at hl
    calc (l.takeWhile Char.isDigit ++ '.' :: r2.takeWhile Char.isDigit) ++ t
        = l.takeWhile Char.isDigit ++ '.' :: (r2.takeWhile Char.isDigit ++ t) := by
          simp [List.append_assoc]
      _ = l.takeWhile Char.isDigit ++ '.' :: r2 := by rw [ht]
      _ = l := hl
  · exact List.takeWhile_prefix _

theorem extractDecimalAux_infix : ∀ (l t : List Char), extractDecimalAux l = some t →
    t <:+: l := by
  intro l
  induction l with
  | nil => intro t h; simp [extractDecimalAux] at h
  | cons c rest ih =>
    intro t h
    simp only [extractDecimalAux] at h
    split at h
    · rw [Option.some.injEq] at h
      subst h
      exact (matchDecimalAt_starts _).isInfix
    · exact List.infix_cons (ih t h)

/-- C5 (amended): for every price cell, the extracted value is either
null (no match of `\d+\.?\d*`) or a non-negative number whose matched
decimal text is a contiguous substring of the original cell text — not
necessarily a prefix, since `str.extract` searches for the leftmost
match anywhere in the cell. -/
theorem extract_numeric_substring (s : String) :
    extractDecimal s = none ∨
    ∃ t, extractDecimal s = some t ∧ t.data <:+: s.data ∧ 0 ≤ decVal t := by
  cases h : extractDecimalAux s.data with
  | none =>
    left
    simp [extractDecimal, h]
  | some l =>
    right
    refine ⟨⟨l⟩, by simp [extractDecimal, h], extractDecimalAux_infix _ _ h, ?_⟩
    unfold decVal
    positivity

/-- C5 counterexample: on the cell `"Kshs 120.50"` the extraction
returns `"120.50"` (value `120.5`), whose text is not a prefix of the
cell. -/
theorem extract_numeric_prefix_counterexample :
    extractDecimal "Kshs 120.50" = some "120.50" ∧
    ¬ ("120.50".data <+: "Kshs 120.50".data) ∧
    decVal "120.50" = 120.5 := by
  refine ⟨by decide, by decide, ?_⟩
  have e1 : digitsVal ("120.50".data.takeWhile Char.isDigit) = 120 := by decide
  have e2 : digitsVal (("120.50".data.dropWhile Char.isDigit).drop 1) = 50 := by decide
  have e3 : (("120.50".data.dropWhile Char.isDigit).drop 1).length = 2 := by decide
  show (digitsVal ("120.50".data.takeWhile Char.isDigit) : ℚ) +
      (digitsVal (("120.50".data.dropWhile Char.isDigit).drop 1) : ℚ) /
        (10 : ℚ) ^ (("120.50".data.dropWhile Char.isDigit).drop 1).length = 120.5
  rw [e1, e2, e3]
  norm_num

/-! ## Claim C6: retry policy, and claim C7: ordered reads -/

/-- C6: every page request makes at most 5 attempts in total, with
exponential backoff 2, 4, 8, 16, 32 seconds between successive attempts,
retries only on statuses in {429, 500, 502, 503, 504}, retries only GET
requests, and uses a fixed 60-second per-attempt timeout. -/
theorem retry_policy_configuration :
    retriesConfig.total = 5 ∧
    ((List.range 5).map fun i => backoffBetween retriesConfig (i + 1)) = [2, 4, 8, 16, 32] ∧
    retriesConfig.status_forcelist = [429, 500, 502, 503, 504] ∧
    retriesConfig.allowed_methods = ["GET"] ∧
    (∀ status method, shouldRetry retriesConfig status method =
      ([429, 500, 502, 503, 504].contains status && ["GET"].contains method)) ∧
    requestTimeoutSeconds = 60 := by
  refine ⟨rfl, ?_, rfl, rfl, ?_, rfl⟩
  · simp only [List.range_succ, List.range_zero, List.map_append, List.map_cons,
      List.map_nil, backoffBetween, retriesConfig]
    norm_num
  · intro status method
    simp [shouldRetry, retriesConfig, List.contains]

/-- C7: the fertilizer reconciliation read orders by `start_date`
descending, not by `date` — and `start_date` is not even a column of the
explicit schema the same script recreates the table with, while `date`
is.  The only read ordered by `date` descending is the fertilizer
previous-month read; both livestock reads request no ordering. -/
theorem recon_read_orders_by_start_date :
    fertReconRead.orderBy = some ("start_date", true) ∧
    "start_date" ∉ fertSchemaColumns ∧
    "date" ∈ fertSchemaColumns ∧
    fertPrevRead.orderBy = some ("date", true) ∧
    liveReconRead.orderBy = none ∧
    livePrevRead.orderBy = none := by
  decide

/-! ## Claim C8: pagination termination and error isolation -/

/-- C8: pagination for an item stops at the first page whose fetch or
parse raises — a successful HTTP response whose body contains no HTML
table raises during parsing just like a failed request — and the pages
already accumulated (for that item and for the other items) are kept:
the run's collected rows are those of the items before it, plus the
item's pages before the failing one, plus those of the items after it. -/
theorem pagination_error_isolated
    (pre post : List ItemSource) (it : ItemSource) (k : ℕ)
    (hk : (it.page k).isOk = false)
    (hlt : ∀ i, i < k → (it.page i).isOk = true) :
    it.collected = (List.range k).filterMap (fun n => (it.page n).toOption) ∧
    fetchRun (pre ++ it :: post) =
      fetchRun pre ++ it.collected.flatten ++ fetchRun post ∧
    (∀ body : Html, body.tables = [] → (fetchParse (Except.ok body)).isOk = false) := by
  refine ⟨?_, ?_, ?_⟩
  · have hfind : Nat.find it.fails = k := by
      rw [Nat.find_eq_iff]
      exact ⟨hk, fun n hn hcon => by simp [hlt n hn] at hcon⟩
    unfold ItemSource.collected
    rw [hfind]
  · unfold fetchRun
    simp [List.map_append, List.flatten_append, List.append_assoc]
  · intro body hbody
    simp [fetchParse, read_html, hbody, Except.isOk, Except.toBool]

def witRow : RawRow := ["5 Sep 2025", "Fertilizer", "DAP"]

def witPage : RawTable := [witRow]

/-- An item whose page 0 succeeds and whose page 1 fails after retries. -/
def witItem : ItemSource :=
  ⟨fun n => if n = 0 then Except.ok witPage else Except.error "HTTP 500", ⟨1, rfl⟩⟩

/-- An item whose very first page fails: it contributes nothing. -/
def witItem2 : ItemSource := ⟨fun _ => Except.error "timeout", ⟨0, rfl⟩⟩

theorem pagination_error_isolated_witness :
    ItemSource.collected witItem = [witPage] ∧
    fetchRun [witItem2, witItem] =
      fetchRun [witItem2] ++ (ItemSource.collected witItem).flatten ++ fetchRun [] ∧
    (fetchParse (Except.ok ⟨[]⟩)).isOk = false := by
  have h := pagination_error_isolated [witItem2] [] witItem 1 rfl ?_
  · exact ⟨h.1.trans rfl, h.2.1, h.2.2 ⟨[]⟩ rfl⟩
  · intro i hi
    have hi0 : i = 0 := Nat.lt_one_iff.mp hi
    subst hi0
    rfl

/-! ## Run-model helper lemmas -/

theorem takeWhile_all_append {α : Type} (p : α → Bool) :
    ∀ (l₁ l₂ : List α), (∀ a ∈ l₁, p a = true) →
      (l₁ ++ l₂).takeWhile p = l₁ ++ l₂.takeWhile p := by
  intro l₁
  induction l₁ with
  | nil => intro l₂ _; rfl
  | cons x xs ih =>
    intro l₂ h
    have hx : p x = true := h x (List.mem_cons_self _ _)
    simp only [List.cons_append, List.takeWhile_cons, hx, if_true]
    rw [ih l₂ fun a ha => h a (List.mem_cons_of_mem _ ha)]

theorem fertRecon_ops (e : FertEnv) (pre : List (StoreOp FertRow)) :
    ∃ rest, (fertRecon e pre).1 = pre ++ StoreOp.readAll :: rest := by
  unfold fertRecon
  cases hr : e.readAllRes with
  | none => exact ⟨[], rfl⟩
  | some rows =>
    by_cases hd : e.dropOk
    · by_cases hf : e.finalLoadOk
      · exact ⟨[StoreOp.dropTable, StoreOp.createTable,
          StoreOp.loadFinal (dropDuplicatesBy fertKey rows)], by simp [hd, hf]⟩
      · exact ⟨[StoreOp.dropTable, StoreOp.createTable,
          StoreOp.loadFinal (dropDuplicatesBy fertKey rows)], by simp [hd, hf]⟩
    · exact ⟨[StoreOp.dropTable], by simp [hd]⟩

theorem liveRecon_ops (e : LiveEnv) (pre : List (StoreOp LiveRow)) :
    ∃ rest, (liveRecon e pre).1 = pre ++ StoreOp.readAll :: rest := by
  unfold liveRecon
  cases hr : e.readAllRes with
  | none => exact ⟨[], rfl⟩
  | some rows =>
    by_cases hd : e.dropOk
    · by_cases hf : e.finalLoadOk
      · exact ⟨[StoreOp.dropTable, StoreOp.createTable,
          StoreOp.loadFinal (dropDuplicatesBy liveKey rows)], by simp [hd, hf]⟩
      · exact ⟨[StoreOp.dropTable, StoreOp.createTable,
          StoreOp.loadFinal (dropDuplicatesBy liveKey rows)], by simp [hd, hf]⟩
    · exact ⟨[StoreOp.dropTable], by simp [hd]⟩

theorem takeWhile_fertRecon (e : FertEnv) (pre : List (StoreOp FertRow))
    (hpre : ∀ op ∈ pre, op.isReadAll = false) :
    ((fertRecon e pre).1.takeWhile fun op => !op.isReadAll) = pre := by
  obtain ⟨rest, hrest⟩ := fertRecon_ops e pre
  rw [hrest, takeWhile_all_append _ pre _ fun a ha => by simp [hpre a ha]]
  simp [List.takeWhile_cons, StoreOp.isReadAll]

theorem takeWhile_liveRecon (e : LiveEnv) (pre : List (StoreOp LiveRow))
    (hpre : ∀ op ∈ pre, op.isReadAll = false) :
    ((liveRecon e pre).1.takeWhile fun op => !op.isReadAll) = pre := by
  obtain ⟨rest, hrest⟩ := liveRecon_ops e pre
  rw [hrest, takeWhile_all_append _ pre _ fun a ha => by simp [hpre a ha]]
  simp [List.takeWhile_cons, StoreOp.isReadAll]

theorem readAll_mem_fertRecon (e : FertEnv) (pre : List (StoreOp FertRow)) :
    StoreOp.readAll ∈ (fertRecon e pre).1 := by
  obtain ⟨rest, hrest⟩ := fertRecon_ops e pre
  rw [hrest]
  exact List.mem_append_right _ (List.mem_cons_self _ _)

theorem readAll_mem_liveRecon (e : LiveEnv) (pre : List (StoreOp LiveRow)) :
    StoreOp.readAll ∈ (liveRecon e pre).1 := by
  obtain ⟨rest, hrest⟩ := liveRecon_ops e pre
  rw [hrest]
  exact List.mem_append_right _ (List.mem_cons_self _ _)

theorem batch_isEmpty_false {α : Type} {l : List α} (h : l ≠ []) : l.isEmpty = false := by
  cases l with
  | nil => exact absurd rfl h
  | cons _ _ => rfl

/-! ## Claim C4: empty-batch short-circuit -/

/-- C4: a run in which zero rows were fetched exits with status 0 and
issues no destination-store operation at all, in both pipelines. -/
theorem empty_batch_no_store_ops :
    (∀ e : FertEnv, e.batch = [] → fertRun e = ([], Outcome.exit0)) ∧
    (∀ e : LiveEnv, e.batch = [] → liveRun e = ([], Outcome.exit0)) := by
  constructor
  · intro e he
    unfold fertRun
    rw [he]
    rfl
  · intro e he
    unfold liveRun
    rw [he]
    rfl

def emptyFertEnv : FertEnv :=
  { day1 := false, rawCols := [], batch := [], check := QRes.notFound,
    prevRead := QRes.notFound, appendOk := true, readAllRes := none,
    dropOk := true, createOk := true, finalLoadOk := true }

def emptyLiveEnv : LiveEnv :=
  { day1 := true, rawCols := [], batch := [], prevRead := QRes.notFound,
    appendOk := true, readAllRes := none, dropOk := true, createOk := true,
    finalLoadOk := true }

theorem empty_batch_no_store_ops_witness :
    fertRun emptyFertEnv = ([], Outcome.exit0) ∧
    liveRun emptyLiveEnv = ([], Outcome.exit0) :=
  ⟨empty_batch_no_store_ops.1 emptyFertEnv rfl,
   empty_batch_no_store_ops.2 emptyLiveEnv rfl⟩

/-! ## Claim C9: unconditional grade/sex drop -/

/-- C9: a non-empty fertilizer batch whose canonicalized columns are
missing `grade` or `sex` makes the run fail during normalization, with no
destination-store operation issued. -/
theorem missing_grade_sex_fatal_before_store (e : FertEnv) (hne : e.batch ≠ [])
    (hmiss : "grade" ∉ e.rawCols.map cleanName ∨ "sex" ∉ e.rawCols.map cleanName) :
    fertRun e = ([], Outcome.fatal) := by
  have hB : ¬ ("grade" ∈ e.rawCols.map cleanName ∧ "sex" ∈ e.rawCols.map cleanName) := by
    rintro ⟨hg, hs⟩
    rcases hmiss with h | h
    · exact h hg
    · exact h hs
  unfold fertRun
  rw [batch_isEmpty_false hne]
  by_cases hA : ("date" ∈ e.rawCols.map cleanName ∧ "wholesale" ∈ e.rawCols.map cleanName ∧
      "retail" ∈ e.rawCols.map cleanName)
  · rw [if_neg (by simp), if_neg (not_not_intro hA), if_pos hB]
  · rw [if_neg (by simp), if_pos hA]

def noGradeEnv : FertEnv :=
  { day1 := false,
    rawCols := ["Commodity", "Classification", "Market", "Wholesale", "Retail",
      "Supply Volume", "County", "Date"],
    batch := [fr1], check := QRes.notFound, prevRead := QRes.notFound,
    appendOk := true, readAllRes := some [fr1], dropOk := true, createOk := true,
    finalLoadOk := true }

theorem missing_grade_sex_fatal_before_store_witness :
    fertRun noGradeEnv = ([], Outcome.fatal) :=
  missing_grade_sex_fatal_before_store noGradeEnv (by decide) (Or.inl (by decide))

/-! ## Claim C2: the batch is appended before reconciliation -/

/-- The scraped column headers of a complete page, as the source site
serves them. -/
def fullFertCols : List String :=
  ["Commodity", "Classification", "Grade", "Sex", "Market", "Wholesale", "Retail",
   "Supply Volume", "County", "Date"]

/-- The batch the run is supposed to append: the fetched batch, with the
previous month's rows prepended when a first-of-month carry-forward read
succeeded. -/
def fertExpectedLoad (e : FertEnv) : List FertRow :=
  if e.day1 then
    match e.prevRead with
    | QRes.ok prev => prev ++ e.batch
    | _ => e.batch
  else e.batch

def liveExpectedLoad (e : LiveEnv) : List LiveRow :=
  if e.day1 then
    match e.prevRead with
    | QRes.ok prev => prev ++ e.batch
    | _ => e.batch
  else e.batch

/-- A first-of-month fertilizer run whose guard query reports existing
current-month rows. -/
def guardFiredEnv : FertEnv :=
  { day1 := true, rawCols := fullFertCols, batch := [fr1], check := QRes.ok 5,
    prevRead := QRes.notFound, appendOk := true, readAllRes := some [fr1],
    dropOk := true, createOk := true, finalLoadOk := true }

/-- C2 counterexample: on a first-of-month fertilizer run with a
non-empty batch, when the current-period table already contains
current-month rows, the guard skips the whole load block: the trace has
no append at all, yet the reconciliation read still happens. -/
theorem append_skipped_on_guarded_first_of_month :
    guardFiredEnv.batch ≠ [] ∧
    fertRun guardFiredEnv =
      ([StoreOp.checkCurrent, StoreOp.readAll, StoreOp.dropTable, StoreOp.createTable,
        StoreOp.loadFinal [fr1]], Outcome.exit0) ∧
    (((fertRun guardFiredEnv).1.takeWhile fun op => !op.isReadAll).any StoreOp.isAppend)
      = false := by
  decide

/-- C2 (amended): for every run with a non-empty normalized batch, the
batch (merged with carry-forward when a first-of-month read returned
rows) is appended before the reconciliation read — except on
first-of-month fertilizer runs where the guard finds existing
current-month rows (then nothing is appended at all, as the
counterexample shows), and provided the first-of-month block's earlier
store requests do not raise a caught error before the append. -/
theorem append_issued_before_recon :
    (∀ e : FertEnv, e.batch ≠ [] →
      ("date" ∈ e.rawCols.map cleanName ∧ "wholesale" ∈ e.rawCols.map cleanName ∧
        "retail" ∈ e.rawCols.map cleanName) →
      ("grade" ∈ e.rawCols.map cleanName ∧ "sex" ∈ e.rawCols.map cleanName) →
      (e.day1 = true → (e.check = QRes.notFound ∨ e.check = QRes.ok 0) ∧
        e.prevRead ≠ QRes.err) →
      StoreOp.append (fertExpectedLoad e) ∈
        ((fertRun e).1.takeWhile fun op => !op.isReadAll)) ∧
    (∀ e : LiveEnv, e.batch ≠ [] →
      ("date" ∈ e.rawCols.map cleanName ∧ "wholesale" ∈ e.rawCols.map cleanName ∧
        "retail" ∈ e.rawCols.map cleanName) →
      (e.day1 = true → e.prevRead ≠ QRes.err) →
      StoreOp.append (liveExpectedLoad e) ∈
        ((liveRun e).1.takeWhile fun op => !op.isReadAll)) := by
  constructor
  · intro e hne hA hB hday
    unfold fertRun
    rw [batch_isEmpty_false hne, if_neg (by simp), if_neg (not_not_intro hA),
      if_neg (not_not_intro hB)]
    by_cases hd : e.day1 = true
    · rw [if_pos hd]
      rcases (hday hd).1 with hc | hc
      · rw [hc]
        unfold fertRollover
        cases hp : e.prevRead with
        | err => exact absurd hp (hday hd).2
        | notFound =>
          rw [takeWhile_fertRecon _ _ (by intro op hop; fin_cases hop <;> rfl)]
          simp [fertExpectedLoad, hd, hp]
        | ok prev =>
          rw [takeWhile_fertRecon _ _ (by intro op hop; fin_cases hop <;> rfl)]
          simp [fertExpectedLoad, hd, hp]
      · rw [hc]
        show StoreOp.append (fertExpectedLoad e) ∈
          ((fertRollover e).1.takeWhile fun op => !op.isReadAll)
        unfold fertRollover
        cases hp : e.prevRead with
        | err => exact absurd hp (hday hd).2
        | notFound =>
          rw [takeWhile_fertRecon _ _ (by intro op hop; fin_cases hop <;> rfl)]
          simp [fertExpectedLoad, hd, hp]
        | ok prev =>
          rw [takeWhile_fertRecon _ _ (by intro op hop; fin_cases hop <;> rfl)]
          simp [fertExpectedLoad, hd, hp]
    · rw [if_neg hd]
      by_cases ha : e.appendOk = true
      · rw [if_pos ha, takeWhile_fertRecon _ _ (by intro op hop; fin_cases hop; rfl)]
        simp [fertExpectedLoad, hd]
      · rw [if_neg ha]
        simp [fertExpectedLoad, hd, List.takeWhile_cons, StoreOp.isReadAll]
  · intro e hne hA hday
    unfold liveRun
    rw [batch_isEmpty_false hne, if_neg (by simp), if_neg (not_not_intro hA)]
    by_cases hd : e.day1 = true
    · rw [if_pos hd]
      unfold liveRollover
      cases hp : e.prevRead with
      | err => exact absurd hp (hday hd)
      | notFound =>
        rw [takeWhile_liveRecon _ _ (by intro op hop; fin_cases hop <;> rfl)]
        simp [liveExpectedLoad, hd, hp]
      | ok prev =>
        rw [takeWhile_liveRecon _ _ (by intro op hop; fin_cases hop <;> rfl)]
        simp [liveExpectedLoad, hd, hp]
    · rw [if_neg hd]
      by_cases ha : e.appendOk = true
      · rw [if_pos ha, takeWhile_liveRecon _ _ (by intro op hop; fin_cases hop; rfl)]
        simp [liveExpectedLoad, hd]
      · rw [if_neg ha]
        simp [liveExpectedLoad, hd, List.takeWhile_cons, StoreOp.isReadAll]

def normalFertEnv : FertEnv :=
  { day1 := false, rawCols := fullFertCols, batch := [fr1], check := QRes.notFound,
    prevRead := QRes.notFound, appendOk := true, readAllRes := some [fr1],
    dropOk := true, createOk := true, finalLoadOk := true }

def lv1 : LiveRow :=
  ⟨"Cattle", "Zebu", "Grade A", "Male", "Nairobi", some 30000, none, some 12,
   "Nairobi", "2024-03-05"⟩

def normalLiveEnv : LiveEnv :=
  { day1 := false, rawCols := fullFertCols, batch := [lv1],
    prevRead := QRes.notFound, appendOk := true, readAllRes := some [lv1],
    dropOk := true, createOk := true, finalLoadOk := true }

theorem append_issued_before_recon_witness :
    StoreOp.append (fertExpectedLoad normalFertEnv) ∈
      ((fertRun normalFertEnv).1.takeWhile fun op => !op.isReadAll) ∧
    StoreOp.append (liveExpectedLoad normalLiveEnv) ∈
      ((liveRun normalLiveEnv).1.takeWhile fun op => !op.isReadAll) :=
  ⟨append_issued_before_recon.1 normalFertEnv (by decide) (by decide) (by decide)
    (by decide),
   append_issued_before_recon.2 normalLiveEnv (by decide) (by decide) (by decide)⟩

/-! ## Claim C3: append failure fatality -/

/-- A first-of-month fertilizer run whose append job fails. -/
def rolloverFailEnv : FertEnv :=
  { day1 := true, rawCols := fullFertCols, batch := [fr1], check := QRes.notFound,
    prevRead := QRes.notFound, appendOk := false, readAllRes := some [fr1],
    dropOk := true, createOk := true, finalLoadOk := true }

/-- C3 counterexample: on a first-of-month fertilizer run the append of
the batch fails, yet the run exits 0 and still performs the
reconciliation pass — the block-level `except Exception` swallows the
failure. -/
theorem append_failure_swallowed_counterexample :
    rolloverFailEnv.appendOk = false ∧
    StoreOp.append rolloverFailEnv.batch ∈ (fertRun rolloverFailEnv).1 ∧
    (fertRun rolloverFailEnv).2 = Outcome.exit0 ∧
    StoreOp.readAll ∈ (fertRun rolloverFailEnv).1 := by
  decide

/-- C3 (amended): on non-first-of-period runs an append failure is fatal
— the run ends with a non-zero outcome, the append is its last store
request and no reconciliation read happens; on first-of-period runs the
failure is caught at the rollover block and the run proceeds to the
reconciliation pass regardless. -/
theorem append_failure_fatal_on_normal_runs :
    (∀ e : FertEnv, e.day1 = false → e.appendOk = false → e.batch ≠ [] →
      ("date" ∈ e.rawCols.map cleanName ∧ "wholesale" ∈ e.rawCols.map cleanName ∧
        "retail" ∈ e.rawCols.map cleanName) →
      ("grade" ∈ e.rawCols.map cleanName ∧ "sex" ∈ e.rawCols.map cleanName) →
      fertRun e = ([StoreOp.append e.batch], Outcome.fatal)) ∧
    (∀ e : LiveEnv, e.day1 = false → e.appendOk = false → e.batch ≠ [] →
      ("date" ∈ e.rawCols.map cleanName ∧ "wholesale" ∈ e.rawCols.map cleanName ∧
        "retail" ∈ e.rawCols.map cleanName) →
      liveRun e = ([StoreOp.append e.batch], Outcome.fatal)) ∧
    (∀ e : FertEnv, e.day1 = true → e.appendOk = false → e.batch ≠ [] →
      ("date" ∈ e.rawCols.map cleanName ∧ "wholesale" ∈ e.rawCols.map cleanName ∧
        "retail" ∈ e.rawCols.map cleanName) →
      ("grade" ∈ e.rawCols.map cleanName ∧ "sex" ∈ e.rawCols.map cleanName) →
      e.check ≠ QRes.err →
      StoreOp.readAll ∈ (fertRun e).1) ∧
    (∀ e : LiveEnv, e.day1 = true → e.appendOk = false → e.batch ≠ [] →
      ("date" ∈ e.rawCols.map cleanName ∧ "wholesale" ∈ e.rawCols.map cleanName ∧
        "retail" ∈ e.rawCols.map cleanName) →
      StoreOp.readAll ∈ (liveRun e).1) := by
  refine ⟨?_, ?_, ?_, ?_⟩
  · intro e hd ha hne hA hB
    unfold fertRun
    rw [batch_isEmpty_false hne, if_neg (by simp), if_neg (not_not_intro hA),
      if_neg (not_not_intro hB), if_neg (by simp [hd]), if_neg (by simp [ha])]
  · intro e hd ha hne hA
    unfold liveRun
    rw [batch_isEmpty_false hne, if_neg (by simp), if_neg (not_not_intro hA),
      if_neg (by simp [hd]), if_neg (by simp [ha])]
  · intro e hd ha hne hA hB hc
    unfold fertRun
    rw [batch_isEmpty_false hne, if_neg (by simp), if_neg (not_not_intro hA),
      if_neg (not_not_intro hB), if_pos hd]
    cases hck : e.check with
    | err => exact absurd hck hc
    | notFound =>
      unfold fertRollover
      cases hp : e.prevRead with
      | err => exact readAll_mem_fertRecon e _
      | notFound => exact readAll_mem_fertRecon e _
      | ok prev => exact readAll_mem_fertRecon e _
    | ok cnt =>
      show StoreOp.readAll ∈
        ((if cnt > 0 then fertRecon e [StoreOp.checkCurrent] else fertRollover e).1)
      by_cases hpos : cnt > 0
      · rw [if_pos hpos]
        exact readAll_mem_fertRecon e _
      · rw [if_neg hpos]
        unfold fertRollover
        cases hp : e.prevRead with
        | err => exact readAll_mem_fertRecon e _
        | notFound => exact readAll_mem_fertRecon e _
        | ok prev => exact readAll_mem_fertRecon e _
  · intro e hd ha hne hA
    unfold liveRun
    rw [batch_isEmpty_false hne, if_neg (by simp), if_neg (not_not_intro hA),
      if_pos hd]
    unfold liveRollover
    cases hp : e.prevRead with
    | err => exact readAll_mem_liveRecon e _
    | notFound => exact readAll_mem_liveRecon e _
    | ok prev => exact readAll_mem_liveRecon e _

/-- A non-first-of-month fertilizer run whose append job fails. -/
def normalFailFertEnv : FertEnv :=
  { day1 := false, rawCols := fullFertCols, batch := [fr1], check := QRes.notFound,
    prevRead := QRes.notFound, appendOk := false, readAllRes := some [fr1],
    dropOk := true, createOk := true, finalLoadOk := true }

/-- A non-first-of-month livestock run whose append job fails. -/
def normalFailLiveEnv : LiveEnv :=
  { day1 := false, rawCols := fullFertCols, batch := [lv1],
    prevRead := QRes.notFound, appendOk := false, readAllRes := some [lv1],
    dropOk := true, createOk := true, finalLoadOk := true }

/-- A first-of-month livestock run whose append job fails. -/
def rolloverFailLiveEnv : LiveEnv :=
  { day1 := true, rawCols := fullFertCols, batch := [lv1],
    prevRead := QRes.notFound, appendOk := false, readAllRes := some [lv1],
    dropOk := true, createOk := true, finalLoadOk := true }

theorem append_failure_fatal_on_normal_runs_witness :
    fertRun normalFailFertEnv = ([StoreOp.append [fr1]], Outcome.fatal) ∧
    liveRun normalFailLiveEnv = ([StoreOp.append [lv1]], Outcome.fatal) ∧
    StoreOp.readAll ∈ (fertRun rolloverFailEnv).1 ∧
    StoreOp.readAll ∈ (liveRun rolloverFailLiveEnv).1 :=
  ⟨append_failure_fatal_on_normal_runs.1 normalFailFertEnv rfl rfl (by decide)
      (by decide) (by decide),
   append_failure_fatal_on_normal_runs.2.1 normalFailLiveEnv rfl rfl (by decide)
      (by decide),
   append_failure_fatal_on_normal_runs.2.2.1 rolloverFailEnv rfl rfl (by decide)
      (by decide) (by decide) (by decide),
   append_failure_fatal_on_normal_runs.2.2.2 rolloverFailLiveEnv rfl rfl (by decide)
      (by decide)⟩

end Kamis
